import Mathlib

/-!
Shallow embedding of the probe-session core of the surge-ping library
(src/ping.rs together with src/error.rs): the correlation Cache, the
reply-wait loop of Pinger.recv_reply, and the send/wait/cleanup protocol
of Pinger.ping.

Modelling conventions:
* Machine integers (the u16 identifier and sequence number) are Nat; the
  code only compares them for equality, so the 2^16 bound is irrelevant.
* Instant and Duration are Nat timestamps. The Rust expression
  message.when - ins is an Instant subtraction that panics on underflow;
  the model returns the distinguished outcome ProbeResult.panic there.
* The external Codec (crate module icmp, outside this core) is modelled at
  its interface: an inbound Message carries the outcome of decode, and
  IcmpPacket carries exactly the fields that check_reply_packet compares.
* The concurrency of the detached send task (task::spawn) and of the
  deadline race (tokio timeout) is modelled by explicit interleaving
  parameters: insertAt is the number of completed receive steps before the
  detached Cache insert lands (none means it lands only after the call
  returns), msgs lists the messages the channel delivers before the
  deadline, and closed tells whether the channel closes after them.
-/

/-- Correlation key, `type Token = (u16, u16)` in src/ping.rs. -/
abbrev Token := Nat × Nat

/-- The correlation Cache, `HashMap<Token, Instant>` behind a lock in
src/ping.rs, modelled as an association list with unique keys. -/
abbrev Cache := List (Token × Nat)

/-- Lookup of a key in the Cache, the read half of `HashMap::remove`. -/
def Cache.find : Cache → Nat → Nat → Option Nat
  | [], _, _ => none
  | (k, t) :: rest, ident, seq_cnt =>
      if k = (ident, seq_cnt) then some t else Cache.find rest ident seq_cnt

/-- Deletion of a key from the Cache, the write half of `HashMap::remove`
and of the overwriting `HashMap::insert`. -/
def Cache.eraseKey : Cache → Nat → Nat → Cache
  | [], _, _ => []
  | (k, t) :: rest, ident, seq_cnt =>
      if k = (ident, seq_cnt) then Cache.eraseKey rest ident seq_cnt
      else (k, t) :: Cache.eraseKey rest ident seq_cnt

/-- `Cache::insert` from src/ping.rs: upsert, last writer wins. -/
def Cache.insert (c : Cache) (ident seq_cnt : Nat) (time : Nat) : Cache :=
  ((ident, seq_cnt), time) :: Cache.eraseKey c ident seq_cnt

/-- `Cache::remove` from src/ping.rs: atomic take-if-present, returning the
stored timestamp when the key was present together with the new map. -/
def Cache.remove (c : Cache) (ident seq_cnt : Nat) : Option Nat × Cache :=
  (Cache.find c ident seq_cnt, Cache.eraseKey c ident seq_cnt)

/-- The error taxonomy of src/error.rs, `MalformedPacketError`. -/
inductive MalformedPacketError where
  | NotIpv4Packet
  | NotIpv6Packet
  | NotIcmpv4Packet
  | NotIcmpv6Packet
  | PayloadTooShort (got : Nat) (want : Nat)
deriving DecidableEq

/-- The error taxonomy of src/error.rs, `SurgeError`. -/
inductive SurgeError where
  | IncorrectBufferSize
  | MalformedPacket (e : MalformedPacketError)
  | IOError
  | Timeout (seq : Nat)
  | EchoRequestPacket
  | NetworkError
deriving DecidableEq

/-- Modelled from the spec: a decoded reply packet of the external Codec,
carrying the fields the predicate is_reply_to compares — the reply source
address, the sequence number and the identifier (crate module icmp is
outside src/). -/
structure IcmpPacket where
  source : Nat
  seq_cnt : Nat
  ident : Nat
deriving DecidableEq

/-- Modelled from the spec: the predicate `is_reply_to(destination,
sequence, identifier)` of the external Codec, called check_reply_packet in
src/ping.rs. -/
def IcmpPacket.check_reply_packet (p : IcmpPacket) (destination seq_cnt ident : Nat) : Bool :=
  p.source == destination && p.seq_cnt == seq_cnt && p.ident == ident

/-- An inbound message of the Dispatcher channel: the decode outcome of its
bytes under the external Codec for the session address family, plus the
receipt timestamp `when`. -/
structure Message where
  decoded : Except SurgeError IcmpPacket
  when : Nat

/-- Result of a probe call: success with packet and round-trip duration, a
classified SurgeError, or a panic (the Instant subtraction underflow). -/
inductive ProbeResult where
  | ok (packet : IcmpPacket) (duration : Nat)
  | err (e : SurgeError)
  | panic
deriving DecidableEq

/-- Outcome of processing one inbound message in the recv_reply loop:
either continue looping with the possibly-updated Cache, or resolve. -/
inductive StepOut where
  | cont (c : Cache)
  | resolve (o : ProbeResult) (c : Cache)
deriving DecidableEq

/-- One iteration of the loop body of Pinger.recv_reply (src/ping.rs lines
117-136) on an already-decoded message: an own-echo-request classification
is discarded, any other decode error resolves the call, a decoded packet
failing check_reply_packet is discarded, and a matching packet atomically
removes the Cache entry — resolving with duration `when - ins` when the
entry was present (panic on underflow), and continuing when it was absent. -/
def recv_step (destination ident seq_cnt : Nat) (cache : Cache) (m : Message) : StepOut :=
  match m.decoded with
  | .ok packet =>
      if packet.check_reply_packet destination seq_cnt ident then
        match Cache.remove cache ident seq_cnt with
        | (some ins, c2) =>
            if ins ≤ m.when then .resolve (.ok packet (m.when - ins)) c2
            else .resolve .panic c2
        | (none, c2) => .cont c2
      else .cont cache
  | .error .EchoRequestPacket => .cont cache
  | .error e => .resolve (.err e) cache

/-- The body of the detached task spawned by Pinger.ping (src/ping.rs lines
150-155): attempt the transmission, where a failure is only logged by
trace, and afterwards — on both outcomes alike — insert the Cache entry
for the correlation key with the current instant. -/
def send_task (sendOk : Bool) (cache : Cache) (ident seq_cnt now : Nat) : Cache :=
  match sendOk with
  | true => Cache.insert cache ident seq_cnt now
  | false => Cache.insert cache ident seq_cnt now

/-- Interleaving bookkeeping for the detached insert: at insertAt = some 0
the send task lands now (running send_task), a positive count decrements
per receive step, and none means the insert is not due during the wait. -/
def applyIns (ident seq_cnt insTime : Nat) (sendOk : Bool) (cache : Cache) :
    Option Nat → Cache × Option Nat
  | some 0 => (send_task sendOk cache ident seq_cnt insTime, none)
  | some (i + 1) => (cache, some i)
  | none => (cache, none)

/-- Outcome of the wait phase: the receive loop resolved before the
deadline (with the Cache as recv_reply left it), or the deadline fired
while the loop was still pending. -/
inductive WaitOut where
  | resolved (o : ProbeResult) (c : Cache)
  | pending (c : Cache)
deriving DecidableEq

/-- The wait phase of Pinger.ping: the recv_reply loop (src/ping.rs lines
116-137) run over the messages delivered before the deadline, interleaved
with the detached insert according to insertAt. An empty remainder with
the channel closed resolves NetworkError (`recv().await` returned None); an
empty remainder with the channel open means the deadline fires first, with
the detached insert landing before the deadline when it is still due. -/
def wait_loop (destination ident seq_cnt insTime : Nat) (sendOk : Bool) :
    Cache → Option Nat → List Message → Bool → WaitOut
  | cache, insertAt, [], closed =>
      if closed then WaitOut.resolved (.err .NetworkError) cache
      else
        WaitOut.pending
          (match insertAt with
            | some _ => send_task sendOk cache ident seq_cnt insTime
            | none => cache)
  | cache, insertAt, m :: rest, closed =>
      match recv_step destination ident seq_cnt
          (applyIns ident seq_cnt insTime sendOk cache insertAt).1 m with
      | .cont c2 =>
          wait_loop destination ident seq_cnt insTime sendOk c2
            (applyIns ident seq_cnt insTime sendOk cache insertAt).2 rest closed
      | .resolve o c2 => WaitOut.resolved o c2

/-- Pinger.ping (src/ping.rs lines 140-167). The encoded parameter is the
outcome of the external make_icmp_echo_packet call: an encoding error
returns immediately with no Cache effect and no wait. Otherwise the wait
phase races recv_reply against the deadline: a resolution is returned as
is, except that an error resolution runs the map_err cleanup
`cache.remove`; a deadline firing runs the same cleanup and returns
`Timeout { seq }`. A panic propagates without reaching map_err. -/
def ping (destination ident seq_cnt : Nat) (encoded : Except SurgeError Unit) (cache : Cache)
    (sendOk : Bool) (insTime : Nat) (insertAt : Option Nat) (msgs : List Message)
    (closed : Bool) : ProbeResult × Cache :=
  match encoded with
  | .error e => (.err e, cache)
  | .ok _ =>
      match wait_loop destination ident seq_cnt insTime sendOk cache insertAt msgs closed with
      | .resolved (.ok p d) c => (.ok p d, c)
      | .resolved (.err e) c => (.err e, (Cache.remove c ident seq_cnt).2)
      | .resolved .panic c => (.panic, c)
      | .pending c => (.err (.Timeout seq_cnt), (Cache.remove c ident seq_cnt).2)

/-- A message the recv_reply loop discards without touching the Cache: an
own-echo-request classification, or a decoded packet failing the reply
predicate. -/
def discards (destination ident seq_cnt : Nat) (m : Message) : Bool :=
  match m.decoded with
  | .ok p => !(p.check_reply_packet destination seq_cnt ident)
  | .error .EchoRequestPacket => true
  | .error _ => false

example :
    ping 7 1 2 (.ok ()) [] true 15 (some 0)
      [⟨.error .EchoRequestPacket, 11⟩, ⟨.ok ⟨7, 2, 1⟩, 20⟩] false
      = (.ok ⟨7, 2, 1⟩ 5, []) := by decide

example :
    ping 7 1 2 (.ok ()) [] true 15 (some 0) [] false
      = (.err (.Timeout 2), []) := by decide

/-! Basic Cache lemmas. -/

theorem Cache.find_eraseKey (c : Cache) (i s : Nat) :
    Cache.find (Cache.eraseKey c i s) i s = none := by
  induction c with
  | nil => rfl
  | cons e rest ih =>
      obtain ⟨k, t⟩ := e
      by_cases h : k = (i, s) <;> simp [Cache.eraseKey, Cache.find, h, ih]

theorem Cache.eraseKey_of_find_none (c : Cache) (i s : Nat)
    (h : Cache.find c i s = none) : Cache.eraseKey c i s = c := by
  induction c with
  | nil => rfl
  | cons e rest ih =>
      obtain ⟨k, t⟩ := e
      by_cases hk : k = (i, s)
      · simp [Cache.find, hk] at h
      · simp [Cache.find, hk] at h
        simp [Cache.eraseKey, hk, ih h]

theorem Cache.find_insert (c : Cache) (i s t : Nat) :
    Cache.find (Cache.insert c i s t) i s = some t := by
  simp [Cache.insert, Cache.find]

theorem Cache.eraseKey_idem (c : Cache) (i s : Nat) :
    Cache.eraseKey (Cache.eraseKey c i s) i s = Cache.eraseKey c i s :=
  Cache.eraseKey_of_find_none _ i s (Cache.find_eraseKey c i s)

theorem Cache.eraseKey_insert (c : Cache) (i s t : Nat) :
    Cache.eraseKey (Cache.insert c i s t) i s = Cache.eraseKey c i s := by
  simp [Cache.insert, Cache.eraseKey, Cache.eraseKey_idem]

theorem send_task_eq (sendOk : Bool) (cache : Cache) (i s t : Nat) :
    send_task sendOk cache i s t = Cache.insert cache i s t := by
  cases sendOk <;> rfl

/-! Lemmas about one receive step. -/

theorem recv_step_discards (D I S : Nat) (cache : Cache) (m : Message)
    (h : discards D I S m = true) : recv_step D I S cache m = .cont cache := by
  unfold discards at h
  unfold recv_step
  rcases hdec : m.decoded with e | p
  · rw [hdec] at h
    cases e <;> simp_all
  · rw [hdec] at h
    simp at h
    simp [h]

theorem recv_step_resolve_ok (D I S : Nat) (cache : Cache) (m : Message)
    (p : IcmpPacket) (d : Nat) (c : Cache)
    (h : recv_step D I S cache m = .resolve (.ok p d) c) :
    p.check_reply_packet D S I = true ∧ c = Cache.eraseKey cache I S := by
  unfold recv_step at h
  rcases hdec : m.decoded with e | packet
  · rw [hdec] at h
    cases e <;> simp_all
  · rw [hdec] at h
    by_cases hchk : packet.check_reply_packet D S I
    · simp only [hchk, if_true, Cache.remove] at h
      rcases hfind : Cache.find cache I S with _ | ins
      · simp [hfind] at h
      · simp only [hfind] at h
        by_cases hle : ins ≤ m.when
        · simp only [hle, if_true] at h
          obtain ⟨ho, hc⟩ := StepOut.resolve.inj h
          obtain ⟨hp, _⟩ := ProbeResult.ok.inj ho
          exact ⟨hp ▸ hchk, hc.symm⟩
        · simp [hle] at h
    · simp [hchk] at h

theorem recv_step_resolve_panic (D I S : Nat) (cache : Cache) (m : Message)
    (c : Cache) (h : recv_step D I S cache m = .resolve .panic c) :
    c = Cache.eraseKey cache I S := by
  unfold recv_step at h
  rcases hdec : m.decoded with e | packet
  · rw [hdec] at h
    cases e <;> simp_all
  · rw [hdec] at h
    by_cases hchk : packet.check_reply_packet D S I
    · simp only [hchk, if_true, Cache.remove] at h
      rcases hfind : Cache.find cache I S with _ | ins
      · simp [hfind] at h
      · simp only [hfind] at h
        by_cases hle : ins ≤ m.when
        · simp [hle] at h
        · simp only [hle, if_false] at h
          exact (StepOut.resolve.inj h).2.symm
    · simp [hchk] at h

theorem recv_step_resolve_err (D I S : Nat) (cache : Cache) (m : Message)
    (e : SurgeError) (c : Cache)
    (h : recv_step D I S cache m = .resolve (.err e) c) :
    e ≠ SurgeError.EchoRequestPacket := by
  unfold recv_step at h
  rcases hdec : m.decoded with e0 | packet
  · rw [hdec] at h
    cases e0 <;> simp_all <;> (rcases h with ⟨he, hc⟩; subst he; simp)
  · rw [hdec] at h
    by_cases hchk : packet.check_reply_packet D S I
    · simp only [hchk, if_true, Cache.remove] at h
      rcases hfind : Cache.find cache I S with _ | ins
      · simp [hfind] at h
      · simp only [hfind] at h
        by_cases hle : ins ≤ m.when <;> simp [hle] at h
    · simp [hchk] at h

/-! Lemmas about the wait phase. -/

theorem wait_loop_cont (D I S T : Nat) (SO : Bool) (cache c2 : Cache) (ia : Option Nat)
    (m : Message) (rest : List Message) (closed : Bool)
    (h : recv_step D I S (applyIns I S T SO cache ia).1 m = .cont c2) :
    wait_loop D I S T SO cache ia (m :: rest) closed
      = wait_loop D I S T SO c2 (applyIns I S T SO cache ia).2 rest closed := by
  simp [wait_loop, h]

theorem wait_loop_resolve (D I S T : Nat) (SO : Bool) (cache : Cache) (ia : Option Nat)
    (m : Message) (rest : List Message) (closed : Bool) (o : ProbeResult) (c2 : Cache)
    (h : recv_step D I S (applyIns I S T SO cache ia).1 m = .resolve o c2) :
    wait_loop D I S T SO cache ia (m :: rest) closed = WaitOut.resolved o c2 := by
  simp [wait_loop, h]

theorem wait_loop_insert_lands (D I S T : Nat) (SO : Bool) (cache : Cache)
    (msgs : List Message) (closed : Bool) (hne : msgs ≠ []) :
    wait_loop D I S T SO cache (some 0) msgs closed
      = wait_loop D I S T SO (Cache.insert cache I S T) none msgs closed := by
  cases msgs with
  | nil => exact absurd rfl hne
  | cons m rest => simp [wait_loop, applyIns, send_task_eq]

theorem wait_loop_skip_discards (D I S T : Nat) (SO : Bool) (pre : List Message) :
    (∀ m ∈ pre, discards D I S m = true) →
      ∀ (cache : Cache) (ms : List Message) (closed : Bool),
        wait_loop D I S T SO cache none (pre ++ ms) closed
          = wait_loop D I S T SO cache none ms closed := by
  induction pre with
  | nil => intro _ cache ms closed; rfl
  | cons m0 pre0 ih =>
      intro h cache ms closed
      have hstep : recv_step D I S cache m0 = .cont cache :=
        recv_step_discards D I S cache m0 (h m0 (by simp))
      rw [List.cons_append, wait_loop_cont D I S T SO cache cache none m0 (pre0 ++ ms) closed hstep]
      exact ih (fun m' hm' => h m' (by simp [hm'])) cache ms closed

theorem wait_loop_match_resolves (D I S T : Nat) (SO : Bool) (cache : Cache) (m : Message)
    (rest : List Message) (closed : Bool) (p : IcmpPacket) (ins : Nat)
    (hdec : m.decoded = .ok p) (hchk : p.check_reply_packet D S I = true)
    (hfind : Cache.find cache I S = some ins) (hle : ins ≤ m.when) :
    wait_loop D I S T SO cache none (m :: rest) closed
      = WaitOut.resolved (.ok p (m.when - ins)) (Cache.eraseKey cache I S) := by
  have hstep : recv_step D I S cache m
      = .resolve (.ok p (m.when - ins)) (Cache.eraseKey cache I S) := by
    unfold recv_step
    rw [hdec]
    simp [hchk, Cache.remove, hfind, hle]
  exact wait_loop_resolve D I S T SO cache none m rest closed _ _ hstep

theorem wait_loop_match_panics (D I S T : Nat) (SO : Bool) (cache : Cache) (m : Message)
    (rest : List Message) (closed : Bool) (p : IcmpPacket) (ins : Nat)
    (hdec : m.decoded = .ok p) (hchk : p.check_reply_packet D S I = true)
    (hfind : Cache.find cache I S = some ins) (hlt : m.when < ins) :
    wait_loop D I S T SO cache none (m :: rest) closed
      = WaitOut.resolved .panic (Cache.eraseKey cache I S) := by
  have hnle : ¬ ins ≤ m.when := Nat.not_le.mpr hlt
  have hstep : recv_step D I S cache m = .resolve .panic (Cache.eraseKey cache I S) := by
    unfold recv_step
    rw [hdec]
    simp [hchk, Cache.remove, hfind, hnle]
  exact wait_loop_resolve D I S T SO cache none m rest closed _ _ hstep

theorem wait_loop_resolved_ok_inv (D I S T : Nat) (SO : Bool) (msgs : List Message) :
    ∀ (cache : Cache) (ia : Option Nat) (closed : Bool) (p : IcmpPacket) (d : Nat) (c : Cache),
      wait_loop D I S T SO cache ia msgs closed = WaitOut.resolved (.ok p d) c →
        p.check_reply_packet D S I = true ∧ Cache.find c I S = none := by
  induction msgs with
  | nil =>
      intro cache ia closed p d c h
      cases closed <;> simp [wait_loop] at h
  | cons m rest ih =>
      intro cache ia closed p d c h
      rcases hstep : recv_step D I S (applyIns I S T SO cache ia).1 m with c2 | ⟨o, c2⟩
      · rw [wait_loop_cont D I S T SO cache c2 ia m rest closed hstep] at h
        exact ih c2 _ closed p d c h
      · rw [wait_loop_resolve D I S T SO cache ia m rest closed o c2 hstep] at h
        obtain ⟨ho, hc⟩ := WaitOut.resolved.inj h
        subst ho
        subst hc
        obtain ⟨hchk, hc2⟩ := recv_step_resolve_ok D I S _ m p d _ hstep
        constructor
        · exact hchk
        · rw [hc2]
          exact Cache.find_eraseKey _ I S

theorem wait_loop_resolved_panic_inv (D I S T : Nat) (SO : Bool) (msgs : List Message) :
    ∀ (cache : Cache) (ia : Option Nat) (closed : Bool) (c : Cache),
      wait_loop D I S T SO cache ia msgs closed = WaitOut.resolved .panic c →
        Cache.find c I S = none := by
  induction msgs with
  | nil =>
      intro cache ia closed c h
      cases closed <;> simp [wait_loop] at h
  | cons m rest ih =>
      intro cache ia closed c h
      rcases hstep : recv_step D I S (applyIns I S T SO cache ia).1 m with c2 | ⟨o, c2⟩
      · rw [wait_loop_cont D I S T SO cache c2 ia m rest closed hstep] at h
        exact ih c2 _ closed c h
      · rw [wait_loop_resolve D I S T SO cache ia m rest closed o c2 hstep] at h
        obtain ⟨ho, hc⟩ := WaitOut.resolved.inj h
        subst ho
        subst hc
        have hc2 := recv_step_resolve_panic D I S _ m _ hstep
        rw [hc2]
        exact Cache.find_eraseKey _ I S

theorem wait_loop_resolved_err_inv (D I S T : Nat) (SO : Bool) (msgs : List Message) :
    ∀ (cache : Cache) (ia : Option Nat) (closed : Bool) (e : SurgeError) (c : Cache),
      wait_loop D I S T SO cache ia msgs closed = WaitOut.resolved (.err e) c →
        e ≠ SurgeError.EchoRequestPacket := by
  induction msgs with
  | nil =>
      intro cache ia closed e c h
      cases closed <;> simp [wait_loop] at h
      obtain ⟨he, _⟩ := h
      subst he
      simp
  | cons m rest ih =>
      intro cache ia closed e c h
      rcases hstep : recv_step D I S (applyIns I S T SO cache ia).1 m with c2 | ⟨o, c2⟩
      · rw [wait_loop_cont D I S T SO cache c2 ia m rest closed hstep] at h
        exact ih c2 _ closed e c h
      · rw [wait_loop_resolve D I S T SO cache ia m rest closed o c2 hstep] at h
        obtain ⟨ho, hc⟩ := WaitOut.resolved.inj h
        subst ho
        exact recv_step_resolve_err D I S _ m e c2 hstep

theorem wait_loop_discards_closed (D I S T : Nat) (SO : Bool) (msgs : List Message) :
    (∀ m ∈ msgs, discards D I S m = true) → ∀ (cache : Cache) (ia : Option Nat),
      ∃ c, wait_loop D I S T SO cache ia msgs true
        = WaitOut.resolved (.err .NetworkError) c := by
  induction msgs with
  | nil =>
      intro _ cache ia
      exact ⟨cache, by simp [wait_loop]⟩
  | cons m rest ih =>
      intro h cache ia
      have hstep : recv_step D I S (applyIns I S T SO cache ia).1 m
          = .cont (applyIns I S T SO cache ia).1 :=
        recv_step_discards D I S _ m (h m (by simp))
      obtain ⟨c, hc⟩ := ih (fun m' hm' => h m' (by simp [hm']))
        (applyIns I S T SO cache ia).1 (applyIns I S T SO cache ia).2
      refine ⟨c, ?_⟩
      rw [wait_loop_cont D I S T SO cache _ ia m rest true hstep]
      exact hc

theorem wait_loop_discards_pending (D I S T : Nat) (SO : Bool) (msgs : List Message) :
    (∀ m ∈ msgs, discards D I S m = true) → ∀ (cache : Cache) (ia : Option Nat),
      ∃ c, wait_loop D I S T SO cache ia msgs false = WaitOut.pending c := by
  induction msgs with
  | nil =>
      intro _ cache ia
      rcases ia with _ | i
      · exact ⟨cache, by simp [wait_loop]⟩
      · exact ⟨send_task SO cache I S T, by simp [wait_loop]⟩
  | cons m rest ih =>
      intro h cache ia
      have hstep : recv_step D I S (applyIns I S T SO cache ia).1 m
          = .cont (applyIns I S T SO cache ia).1 :=
        recv_step_discards D I S _ m (h m (by simp))
      obtain ⟨c, hc⟩ := ih (fun m' hm' => h m' (by simp [hm']))
        (applyIns I S T SO cache ia).1 (applyIns I S T SO cache ia).2
      refine ⟨c, ?_⟩
      rw [wait_loop_cont D I S T SO cache _ ia m rest false hstep]
      exact hc

theorem applyIns_sendOk (I S T : Nat) (cache : Cache) (ia : Option Nat) :
    applyIns I S T true cache ia = applyIns I S T false cache ia := by
  rcases ia with _ | (_ | i) <;> simp [applyIns, send_task_eq]

theorem wait_loop_sendOk_irrelevant (D I S T : Nat) (msgs : List Message) :
    ∀ (cache : Cache) (ia : Option Nat) (closed : Bool),
      wait_loop D I S T true cache ia msgs closed
        = wait_loop D I S T false cache ia msgs closed := by
  induction msgs with
  | nil =>
      intro cache ia closed
      rcases ia with _ | i <;> cases closed <;> simp [wait_loop, send_task_eq]
  | cons m rest ih =>
      intro cache ia closed
      rcases hstep : recv_step D I S (applyIns I S T false cache ia).1 m with c2 | ⟨o, c2⟩
      · rw [wait_loop_cont D I S T false cache c2 ia m rest closed hstep]
        rw [wait_loop_cont D I S T true cache c2 ia m rest closed
          (by rw [applyIns_sendOk]; exact hstep)]
        rw [applyIns_sendOk]
        exact ih c2 _ closed
      · rw [wait_loop_resolve D I S T false cache ia m rest closed o c2 hstep]
        rw [wait_loop_resolve D I S T true cache ia m rest closed o c2
          (by rw [applyIns_sendOk]; exact hstep)]

/-! Claim theorems. -/

/-- Claim C1: for every probe invocation of ping(seq), on every exit path
(successful match, timeout, or error), the correlation Cache contains no
entry for the key (identifier, seq) once the call returns: the match path
consumes the entry via remove, and the timeout and error paths each call
remove before returning. Stated as preservation of key-freedom of the
Cache across the call, for every interleaving of the detached insert,
every delivered message list, both channel fates, and both transmission
outcomes. -/
theorem ping_cache_clear_on_return (D I S : Nat) (encoded : Except SurgeError Unit)
    (c0 : Cache) (SO : Bool) (T : Nat) (ia : Option Nat) (msgs : List Message) (closed : Bool)
    (h : Cache.find c0 I S = none) :
    Cache.find (ping D I S encoded c0 SO T ia msgs closed).2 I S = none := by
  rcases encoded with e | u
  · simpa [ping] using h
  · rcases hw : wait_loop D I S T SO c0 ia msgs closed with ⟨o, c⟩ | c
    · rcases o with ⟨p, d⟩ | e | _
      · have hinv := (wait_loop_resolved_ok_inv D I S T SO msgs c0 ia closed p d c hw).2
        simpa [ping, hw] using hinv
      · simp [ping, hw, Cache.remove, Cache.find_eraseKey]
      · have hinv := wait_loop_resolved_panic_inv D I S T SO msgs c0 ia closed c hw
        simpa [ping, hw] using hinv
    · simp [ping, hw, Cache.remove, Cache.find_eraseKey]

/-- Witness for C1 at a concrete invocation. -/
theorem ping_cache_clear_on_return_witness :
    Cache.find ([] : Cache) 1 2 = none ∧
      Cache.find (ping 7 1 2 (.ok ()) [] true 15 (some 0)
        [⟨.ok ⟨7, 2, 1⟩, 20⟩] false).2 1 2 = none :=
  ⟨rfl, ping_cache_clear_on_return 7 1 2 (.ok ()) [] true 15 (some 0)
    [⟨.ok ⟨7, 2, 1⟩, 20⟩] false rfl⟩

/-- Claim C2: if a message that decodes successfully and satisfies the
reply predicate for (destination, seq, identifier) is delivered strictly
after the Cache entry was inserted (the insert lands before all delivered
messages, and the earlier messages are discarded ones) and before the
deadline fires, then ping returns success with duration equal to the
receipt timestamp minus the recorded send timestamp — a Nat, hence
non-negative, well defined by the hypothesis insTime ≤ m.when — and the
Cache holds no entry for the key afterward. -/
theorem ping_match_returns_duration (D I S insTime : Nat) (SO : Bool) (c0 : Cache)
    (pre : List Message) (m : Message) (rest : List Message) (closed : Bool) (p : IcmpPacket)
    (hpre : ∀ m' ∈ pre, discards D I S m' = true)
    (hdec : m.decoded = .ok p)
    (hchk : p.check_reply_packet D S I = true)
    (hwhen : insTime ≤ m.when) :
    (ping D I S (.ok ()) c0 SO insTime (some 0) (pre ++ m :: rest) closed).1
        = .ok p (m.when - insTime)
    ∧ Cache.find (ping D I S (.ok ()) c0 SO insTime (some 0) (pre ++ m :: rest) closed).2 I S
        = none := by
  have hne : pre ++ m :: rest ≠ [] := by
    cases pre <;> simp
  have hw : wait_loop D I S insTime SO c0 (some 0) (pre ++ m :: rest) closed
      = WaitOut.resolved (.ok p (m.when - insTime))
          (Cache.eraseKey (Cache.insert c0 I S insTime) I S) := by
    rw [wait_loop_insert_lands D I S insTime SO c0 (pre ++ m :: rest) closed hne]
    rw [wait_loop_skip_discards D I S insTime SO pre hpre
      (Cache.insert c0 I S insTime) (m :: rest) closed]
    exact wait_loop_match_resolves D I S insTime SO (Cache.insert c0 I S insTime) m rest
      closed p insTime hdec hchk (Cache.find_insert c0 I S insTime) hwhen
  constructor
  · simp [ping, hw]
  · simp [ping, hw, Cache.eraseKey_insert, Cache.find_eraseKey]

/-- Witness for C2 at a concrete invocation: send recorded at 15, matching
reply received at 20, duration 5. -/
theorem ping_match_returns_duration_witness :
    15 ≤ 20
    ∧ (ping 7 1 2 (.ok ()) [] true 15 (some 0)
        ([⟨.error .EchoRequestPacket, 11⟩] ++ ⟨.ok ⟨7, 2, 1⟩, 20⟩ :: []) false).1
          = .ok ⟨7, 2, 1⟩ 5
    ∧ Cache.find (ping 7 1 2 (.ok ()) [] true 15 (some 0)
        ([⟨.error .EchoRequestPacket, 11⟩] ++ ⟨.ok ⟨7, 2, 1⟩, 20⟩ :: []) false).2 1 2
          = none := by
  have h := ping_match_returns_duration 7 1 2 15 true []
    [⟨.error .EchoRequestPacket, 11⟩] ⟨.ok ⟨7, 2, 1⟩, 20⟩ [] false ⟨7, 2, 1⟩
    (by decide) rfl (by decide) (by decide)
  exact ⟨by decide, h.1, h.2⟩

/-- Claim C3: in the waiting loop, a decoded message that satisfies the
reply predicate but whose Cache entry for (identifier, seq) is absent at
the moment of the atomic remove does not resolve the call: the message is
discarded and the loop continues waiting on the remaining messages, so
such a reply is never returned and the call can only resolve from the
remaining traffic, an error, or the deadline. -/
theorem wait_absent_entry_continues (D I S T : Nat) (SO : Bool) (cache : Cache) (m : Message)
    (rest : List Message) (closed : Bool) (p : IcmpPacket)
    (hdec : m.decoded = .ok p)
    (hchk : p.check_reply_packet D S I = true)
    (habs : Cache.find cache I S = none) :
    wait_loop D I S T SO cache none (m :: rest) closed
      = wait_loop D I S T SO cache none rest closed := by
  have hstep : recv_step D I S cache m = .cont cache := by
    unfold recv_step
    rw [hdec]
    simp [hchk, Cache.remove, habs, Cache.eraseKey_of_find_none cache I S habs]
  exact wait_loop_cont D I S T SO cache cache none m rest closed hstep

/-- Witness for C3 at a concrete invocation: a matching reply with an
empty Cache is skipped. -/
theorem wait_absent_entry_continues_witness :
    Cache.find ([] : Cache) 1 2 = none
    ∧ wait_loop 7 1 2 15 true [] none [⟨.ok ⟨7, 2, 1⟩, 20⟩] false
        = wait_loop 7 1 2 15 true [] none [] false :=
  ⟨rfl, wait_absent_entry_continues 7 1 2 15 true [] ⟨.ok ⟨7, 2, 1⟩, 20⟩ [] false
    ⟨7, 2, 1⟩ rfl (by decide) rfl⟩

/-- Claim C4: whenever ping returns a successful (packet, duration)
result, the returned packet satisfies the reply predicate
check_reply_packet for exactly this invocation (destination, seq,
identifier); a decoded message for which the predicate is false is
discarded, so a reply bearing a different sequence or identifier is never
returned. -/
theorem ping_success_satisfies_reply_predicate (D I S : Nat) (encoded : Except SurgeError Unit)
    (c0 : Cache) (SO : Bool) (T : Nat) (ia : Option Nat) (msgs : List Message) (closed : Bool)
    (p : IcmpPacket) (d : Nat)
    (h : (ping D I S encoded c0 SO T ia msgs closed).1 = .ok p d) :
    p.check_reply_packet D S I = true := by
  rcases encoded with e | u
  · simp [ping] at h
  · rcases hw : wait_loop D I S T SO c0 ia msgs closed with ⟨o, c⟩ | c
    · rcases o with ⟨p0, d0⟩ | e | _
      · simp [ping, hw] at h
        obtain ⟨hp, hd⟩ := h
        subst hp
        exact (wait_loop_resolved_ok_inv D I S T SO msgs c0 ia closed p0 d0 c hw).1
      · simp [ping, hw] at h
      · simp [ping, hw] at h
    · simp [ping, hw] at h

/-- Witness for C4 at a concrete invocation. -/
theorem ping_success_satisfies_reply_predicate_witness :
    (ping 7 1 2 (.ok ()) [] true 15 (some 0) [⟨.ok ⟨7, 2, 1⟩, 20⟩] false).1
        = .ok ⟨7, 2, 1⟩ 5
    ∧ IcmpPacket.check_reply_packet ⟨7, 2, 1⟩ 7 2 1 = true :=
  ⟨by decide, ping_success_satisfies_reply_predicate 7 1 2 (.ok ()) [] true 15 (some 0)
    [⟨.ok ⟨7, 2, 1⟩, 20⟩] false ⟨7, 2, 1⟩ 5 (by decide)⟩

/-- Claim C5: an inbound message whose decode classifies it as the own
outgoing echo request looped back (the EchoRequestPacket classification)
is discarded by the wait loop, which continues looping; and this
classification is never returned as an error from ping, so it never
terminates the waiting call. -/
theorem echo_request_never_terminates (D I S T : Nat) (SO : Bool) (m : Message)
    (hdec : m.decoded = .error .EchoRequestPacket) :
    (∀ (cache : Cache) (rest : List Message) (closed : Bool),
        wait_loop D I S T SO cache none (m :: rest) closed
          = wait_loop D I S T SO cache none rest closed)
    ∧ (∀ (c0 : Cache) (ia : Option Nat) (msgs : List Message) (closed : Bool),
        (ping D I S (.ok ()) c0 SO T ia msgs closed).1 ≠ .err .EchoRequestPacket) := by
  constructor
  · intro cache rest closed
    have hstep : recv_step D I S cache m = .cont cache := by
      unfold recv_step
      rw [hdec]
    exact wait_loop_cont D I S T SO cache cache none m rest closed hstep
  · intro c0 ia msgs closed
    rcases hw : wait_loop D I S T SO c0 ia msgs closed with ⟨o, c⟩ | c
    · rcases o with ⟨p0, d0⟩ | e | _
      · simp [ping, hw]
      · have hne := wait_loop_resolved_err_inv D I S T SO msgs c0 ia closed e c hw
        simp [ping, hw, hne]
      · simp [ping, hw]
    · simp [ping, hw]

/-- Witness for C5 at a concrete invocation. -/
theorem echo_request_never_terminates_witness :
    (wait_loop 7 1 2 15 true [] none [⟨.error .EchoRequestPacket, 11⟩] false
        = wait_loop 7 1 2 15 true [] none [] false)
    ∧ (ping 7 1 2 (.ok ()) [] true 15 none [⟨.error .EchoRequestPacket, 11⟩] false).1
        ≠ .err .EchoRequestPacket :=
  ⟨(echo_request_never_terminates 7 1 2 15 true ⟨.error .EchoRequestPacket, 11⟩ rfl).1
      [] [] false,
   (echo_request_never_terminates 7 1 2 15 true ⟨.error .EchoRequestPacket, 11⟩ rfl).2
      [] none [⟨.error .EchoRequestPacket, 11⟩] false⟩

/-- Claim C6: if the inbound channel closes before any matching reply has
resolved the call and before the deadline fires — all delivered messages
being discarded ones — ping returns the NetworkError classification, and
the Cache entry for (identifier, seq) is removed before the error is
returned, for every interleaving of the detached insert. -/
theorem ping_channel_closed_network_error (D I S T : Nat) (SO : Bool) (c0 : Cache)
    (ia : Option Nat) (msgs : List Message)
    (hmsgs : ∀ m ∈ msgs, discards D I S m = true) :
    (ping D I S (.ok ()) c0 SO T ia msgs true).1 = .err .NetworkError
    ∧ Cache.find (ping D I S (.ok ()) c0 SO T ia msgs true).2 I S = none := by
  obtain ⟨c, hc⟩ := wait_loop_discards_closed D I S T SO msgs hmsgs c0 ia
  constructor
  · simp [ping, hc]
  · simp [ping, hc, Cache.remove, Cache.find_eraseKey]

/-- Witness for C6 at a concrete invocation. -/
theorem ping_channel_closed_network_error_witness :
    (ping 7 1 2 (.ok ()) [] true 15 (some 0) [⟨.error .EchoRequestPacket, 11⟩] true).1
        = .err .NetworkError
    ∧ Cache.find (ping 7 1 2 (.ok ()) [] true 15 (some 0)
        [⟨.error .EchoRequestPacket, 11⟩] true).2 1 2 = none :=
  ping_channel_closed_network_error 7 1 2 15 true [] (some 0)
    [⟨.error .EchoRequestPacket, 11⟩] (by decide)

/-- Claim C7: if no matching reply resolves the wait before the timeout
elapses — the messages delivered before the deadline are all discarded
ones and the channel stays open — ping removes any Cache entry for
(identifier, seq) and returns the Timeout classification carrying exactly
the sequence number that was passed to the call; the cleanup is idempotent
in that erasing an absent key is a no-op. -/
theorem ping_timeout_cleanup (D I S T : Nat) (SO : Bool) (c0 : Cache) (ia : Option Nat)
    (msgs : List Message)
    (hmsgs : ∀ m ∈ msgs, discards D I S m = true) :
    (ping D I S (.ok ()) c0 SO T ia msgs false).1 = .err (.Timeout S)
    ∧ Cache.find (ping D I S (.ok ()) c0 SO T ia msgs false).2 I S = none
    ∧ ∀ c : Cache, Cache.find c I S = none → Cache.eraseKey c I S = c := by
  obtain ⟨c, hc⟩ := wait_loop_discards_pending D I S T SO msgs hmsgs c0 ia
  refine ⟨?_, ?_, ?_⟩
  · simp [ping, hc]
  · simp [ping, hc, Cache.remove, Cache.find_eraseKey]
  · intro c1 h1
    exact Cache.eraseKey_of_find_none c1 I S h1

/-- Witness for C7 at a concrete invocation. -/
theorem ping_timeout_cleanup_witness :
    (ping 7 1 2 (.ok ()) [] true 15 (some 0) [⟨.error .EchoRequestPacket, 11⟩] false).1
        = .err (.Timeout 2)
    ∧ Cache.find (ping 7 1 2 (.ok ()) [] true 15 (some 0)
        [⟨.error .EchoRequestPacket, 11⟩] false).2 1 2 = none :=
  ⟨(ping_timeout_cleanup 7 1 2 15 true [] (some 0)
      [⟨.error .EchoRequestPacket, 11⟩] (by decide)).1,
   (ping_timeout_cleanup 7 1 2 15 true [] (some 0)
      [⟨.error .EchoRequestPacket, 11⟩] (by decide)).2.1⟩

/-- Claim C8: if the codec rejects the parameters during packet
construction, ping returns that classification immediately and terminally:
the returned Cache is the input Cache unchanged (no entry inserted or
removed), and the wait phase is never entered — the delivered messages,
the interleaving and the channel fate have no effect on the result. -/
theorem ping_encode_error_terminal (D I S : Nat) (e : SurgeError) (c0 : Cache) (SO : Bool)
    (T : Nat) (ia : Option Nat) (msgs : List Message) (closed : Bool) :
    ping D I S (.error e) c0 SO T ia msgs closed = (.err e, c0) := rfl

/-- Claim C9: in the detached background send task, the Cache entry for
(identifier, seq) mapped to the send instant is inserted after the
transmit attempt, regardless of whether transmission succeeded or failed;
and a transmission failure is never surfaced from the ping call — the
entire result of ping is independent of the transmission outcome. -/
theorem send_task_insert_unconditional (I S now : Nat) (cache : Cache) :
    (∀ SO : Bool, send_task SO cache I S now = Cache.insert cache I S now)
    ∧ (∀ SO : Bool, Cache.find (send_task SO cache I S now) I S = some now)
    ∧ ∀ (D seq : Nat) (encoded : Except SurgeError Unit) (c0 : Cache) (T : Nat)
        (ia : Option Nat) (msgs : List Message) (closed : Bool),
        ping D I seq encoded c0 true T ia msgs closed
          = ping D I seq encoded c0 false T ia msgs closed := by
  refine ⟨fun SO => send_task_eq SO cache I S now, fun SO => ?_, ?_⟩
  · rw [send_task_eq]
    exact Cache.find_insert cache I S now
  · intro D seq encoded c0 T ia msgs closed
    rcases encoded with e | u
    · rfl
    · simp [ping, wait_loop_sendOk_irrelevant D I seq T msgs c0 ia closed]

/-- Claim C10: the round-trip duration is the unchecked Instant
subtraction, well defined only when the receipt timestamp of the matched
message is not earlier than the recorded send timestamp; if the matched
message is stamped before the recorded send instant, the subtraction
underflows and the call panics instead of returning a classified error. -/
theorem duration_underflow_panics (D I S insTime : Nat) (SO : Bool) (c0 : Cache) (m : Message)
    (rest : List Message) (closed : Bool) (p : IcmpPacket)
    (hdec : m.decoded = .ok p)
    (hchk : p.check_reply_packet D S I = true)
    (hlt : m.when < insTime) :
    (ping D I S (.ok ()) c0 SO insTime (some 0) (m :: rest) closed).1 = .panic := by
  have hw : wait_loop D I S insTime SO c0 (some 0) (m :: rest) closed
      = WaitOut.resolved .panic (Cache.eraseKey (Cache.insert c0 I S insTime) I S) := by
    rw [wait_loop_insert_lands D I S insTime SO c0 (m :: rest) closed (by simp)]
    exact wait_loop_match_panics D I S insTime SO (Cache.insert c0 I S insTime) m rest
      closed p insTime hdec hchk (Cache.find_insert c0 I S insTime) hlt
  simp [ping, hw]

/-- Witness for C10 at a concrete invocation: reply stamped at 10, send
recorded at 15. -/
theorem duration_underflow_panics_witness :
    10 < 15
    ∧ (ping 7 1 2 (.ok ()) [] true 15 (some 0) [⟨.ok ⟨7, 2, 1⟩, 10⟩] false).1 = .panic :=
  ⟨by decide, duration_underflow_panics 7 1 2 15 true [] ⟨.ok ⟨7, 2, 1⟩, 10⟩ [] false
    ⟨7, 2, 1⟩ rfl (by decide) (by decide)⟩
